import Mathlib

/-!
# Verification of the `di` dependency-injection container

A shallow embedding of the `di` Go package (files `di.go`, `provider.go`):
a reflection-based DI container (provider registry, type/interface-directed
lookup, lazy singleton construction, cycle detection) plus a lifecycle
orchestrator (`App`) driving ordered `Start`/`Stop` under per-phase timeouts.

Modelling choices:
* `reflect.Type` descriptors become opaque numeric codes `Ty`; the runtime
  type relations `AssignableTo`, `Implements` and interface-kind tests become
  an explicit `TypeWorld` of boolean oracles.
* Instance values (`any` / `reflect.Value`) become opaque numeric codes
  `Value`.
* Go errors built with `fmt.Errorf("%w ...")` become the inductive `Err`,
  whose wrapping constructors keep the wrapped error intact, mirroring the
  `%w` chain that `errors.Is`/`errors.Unwrap` walk.
* The mutually recursive construction algorithm is embedded with an explicit
  fuel parameter; `none` marks fuel exhaustion.  All state mutation of the
  Go `Container` is explicit state passing.
* Calls to `Resolve` are modelled at the point after the reflect pointer
  check has succeeded: the target is described by its element type and
  whether it is interface-kinded.
-/

/-- Opaque code for a `reflect.Type` descriptor. -/
abbrev Ty := Nat

/-- Opaque code for a runtime instance value (`any`). -/
abbrev Value := Nat

/-- Go errors as produced by the package.  The wrapping constructors mirror
`fmt.Errorf("%w ...")`: `wrapConstructor e n` is
`fmt.Errorf("%w [constructor: %s]", e, n)` from `buildInstance`, and
`wrapTarget e n` is `fmt.Errorf("%w [target=%s]", e, n)` from `Resolve`.
`msg` covers arbitrary errors produced by user constructors, and
`deadlineExceeded` / `canceled` are `context.DeadlineExceeded` /
`context.Canceled`. -/
inductive Err where
  | msg (s : String)
  | deadlineExceeded
  | canceled
  | noProviderForInterface (t : Ty)
  | noProviderForType (t : Ty)
  | circular (name : String)
  | wrapConstructor (e : Err) (name : String)
  | wrapTarget (e : Err) (name : String)
deriving DecidableEq, Repr

/-- Walk a `%w` chain to its innermost error (repeated `errors.Unwrap`). -/
def unwrapAll : Err → Err
  | .wrapConstructor e _ => unwrapAll e
  | .wrapTarget e _ => unwrapAll e
  | e => e

/-- `errors.Is e target`: the target occurs somewhere on the `%w` chain. -/
def errIs : Err → Err → Bool
  | e, target =>
    e = target ||
      match e with
      | .wrapConstructor e' _ => errIs e' target
      | .wrapTarget e' _ => errIs e' target
      | _ => false

/-- The runtime type relations that `reflect` provides: `assignable a b` is
`a.AssignableTo(b)`, `implTo a b` is `a.Implements(b)`, and `isInterface a`
is `a.Kind() == reflect.Interface`. -/
structure TypeWorld where
  assignable : Ty → Ty → Bool
  implTo : Ty → Ty → Bool
  isInterface : Ty → Bool

/-- `Provider` (provider.go): metadata wrapper around one constructor.
`initFunc` is the invocation adapter normalising the constructor's result to
value-or-error; `args` is the explicit override map filled by `Arg`, keyed by
the override value's own runtime type. -/
structure Provider where
  name : String
  returnType : Ty
  paramTypes : List Ty
  initFunc : List Value → Except Err Value
  args : List (Ty × Value)

/-- Go map lookup on an association list (later `Arg` calls on the same key
overwrite, so the head entry wins, matching map assignment order here). -/
def lookupType (m : List (Ty × Value)) (t : Ty) : Option Value :=
  match m with
  | [] => none
  | (k, v) :: rest => if k = t then some v else lookupType rest t

/-- `Provider.Arg` (provider.go): bind an override value keyed by its own
runtime type.  `typ` is `reflect.TypeOf(arg)`. -/
def Provider.Arg (p : Provider) (typ : Ty) (v : Value) : Provider :=
  { p with args := (typ, v) :: p.args }

/-- `Container` (di.go): the provider list in registration order, the
singleton cache `instances` keyed by the requested descriptor, the
creation-order list `instancesList`, and the in-progress marker set
`resolvedMap` used for cycle detection. -/
structure Container where
  providers : List Provider
  instances : List (Ty × Value)
  instancesList : List Value
  resolvedMap : List Ty

/-- `New` (di.go): fresh container with empty caches. -/
def New : Container :=
  { providers := [], instances := [], instancesList := [], resolvedMap := [] }

/-- Go `delete(map, t)` on the marker set (each type is inserted at most
once, so removing the first occurrence is exact). -/
def removeFirst : List Ty → Ty → List Ty
  | [], _ => []
  | x :: rest, t => if x = t then rest else x :: removeFirst rest t

/-- The match condition of the `getInstanceByType` provider loop:
`prov.returnType.AssignableTo(t) || (prov.returnType.Kind() == Interface &&
prov.returnType.Implements(t))`. -/
def matchByType (W : TypeWorld) (p : Provider) (t : Ty) : Bool :=
  W.assignable p.returnType t || (W.isInterface p.returnType && W.implTo p.returnType t)

/-- First registered provider matching a concrete-type request (the
`for _, prov := range c.providers` loop in `getInstanceByType`). -/
def findProviderByType (W : TypeWorld) : List Provider → Ty → Option Provider
  | [], _ => none
  | p :: rest, t => if matchByType W p t then some p else findProviderByType W rest t

/-- First registered provider whose produced type implements the requested
interface (the loop in `getInstanceByInterface`). -/
def findProviderByInterface (W : TypeWorld) : List Provider → Ty → Option Provider
  | [], _ => none
  | p :: rest, t => if W.implTo p.returnType t then some p else findProviderByInterface W rest t

mutual

/-- `Container.buildInstance` (di.go): cycle guard on the produced type,
marker insert with deferred delete on every exit path, the ordered argument
loop (override first, else recursive resolution by type, errors wrapped with
the provider's name), constructor invocation (its error returned as is), and
the creation-order append on success. -/
def buildInstance (W : TypeWorld) : Nat → Container → Provider → Option (Container × Except Err Value)
  | 0, _, _ => none
  | fuel + 1, c, p =>
    if p.returnType ∈ c.resolvedMap then
      some (c, Except.error (Err.circular p.name))
    else
      let c1 : Container := { c with resolvedMap := p.returnType :: c.resolvedMap }
      match resolveArgs W fuel c1 p p.paramTypes with
      | none => none
      | some (c2, Except.error e) =>
        some ({ c2 with resolvedMap := removeFirst c2.resolvedMap p.returnType }, Except.error e)
      | some (c2, Except.ok args) =>
        match p.initFunc args with
        | Except.error e =>
          some ({ c2 with resolvedMap := removeFirst c2.resolvedMap p.returnType }, Except.error e)
        | Except.ok result =>
          some ({ c2 with
                    resolvedMap := removeFirst c2.resolvedMap p.returnType,
                    instancesList := c2.instancesList ++ [result] },
                Except.ok result)
termination_by fuel c p => (fuel, 0)

/-- The argument-assembly loop of `buildInstance`: for each ordered parameter
type, use the provider's override if present, otherwise resolve it by type,
wrapping any resolution error as
`fmt.Errorf("%w [constructor: %s]", err, p.name)`. -/
def resolveArgs (W : TypeWorld) : Nat → Container → Provider → List Ty → Option (Container × Except Err (List Value))
  | _, c, _, [] => some (c, Except.ok [])
  | fuel, c, p, pt :: rest =>
    match lookupType p.args pt with
    | some v =>
      match resolveArgs W fuel c p rest with
      | none => none
      | some (c', Except.error e) => some (c', Except.error e)
      | some (c', Except.ok vs) => some (c', Except.ok (v :: vs))
    | none =>
      match getInstanceByType W fuel c pt with
      | none => none
      | some (c', Except.error e) => some (c', Except.error (Err.wrapConstructor e p.name))
      | some (c', Except.ok v) =>
        match resolveArgs W fuel c' p rest with
        | none => none
        | some (c'', Except.error e) => some (c'', Except.error e)
        | some (c'', Except.ok vs) => some (c'', Except.ok (v :: vs))
termination_by fuel c p l => (fuel, l.length + 1)

/-- `Container.getInstanceByType` (di.go): singleton cache first, then the
first matching provider builds, and the result is cached under the requested
type `t` (not under the provider's produced type). -/
def getInstanceByType (W : TypeWorld) : Nat → Container → Ty → Option (Container × Except Err Value)
  | 0, _, _ => none
  | fuel + 1, c, t =>
    match lookupType c.instances t with
    | some v => some (c, Except.ok v)
    | none =>
      match findProviderByType W c.providers t with
      | none => some (c, Except.error (Err.noProviderForType t))
      | some p =>
        match buildInstance W fuel c p with
        | none => none
        | some (c', Except.error e) => some (c', Except.error e)
        | some (c', Except.ok v) =>
          some ({ c' with instances := (t, v) :: c'.instances }, Except.ok v)
termination_by fuel c t => (fuel, 0)

end

/-- `Container.getInstanceByInterface` (di.go): singleton cache first, then
the first provider whose produced type implements the interface builds, and
the result is cached under the interface descriptor. -/
def getInstanceByInterface (W : TypeWorld) : Nat → Container → Ty → Option (Container × Except Err Value)
  | 0, _, _ => none
  | fuel + 1, c, t =>
    match lookupType c.instances t with
    | some v => some (c, Except.ok v)
    | none =>
      match findProviderByInterface W c.providers t with
      | none => some (c, Except.error (Err.noProviderForInterface t))
      | some p =>
        match buildInstance W fuel c p with
        | none => none
        | some (c', Except.error e) => some (c', Except.error e)
        | some (c', Except.ok v) =>
          some ({ c' with instances := (t, v) :: c'.instances }, Except.ok v)

/-- `Container.Resolve` (di.go) after the pointer check has succeeded:
`isIface` is `ptrVal.Elem().Kind() == reflect.Interface`, `t` the element
type and `targetName` the `getFuncName(ptrVal)` diagnostic.  Interface
resolution failures gain the `[target=...]` wrap; by-type failures are
returned unchanged. -/
def Container.Resolve (W : TypeWorld) (fuel : Nat) (c : Container) (isIface : Bool) (t : Ty)
    (targetName : String) : Option (Container × Except Err Value) :=
  if isIface then
    match getInstanceByInterface W fuel c t with
    | none => none
    | some (c', Except.error e) => some (c', Except.error (Err.wrapTarget e targetName))
    | some (c', Except.ok v) => some (c', Except.ok v)
  else
    getInstanceByType W fuel c t

/-!
## Lifecycle orchestrator (`App`, di.go)

`withTimeout` races a service call against the bounded context in a goroutine;
which side wins, and what error the call itself reports, depend on the
scheduler and on wall-clock time.  The embedding therefore takes the outcome
of each bounded lifecycle call as an oracle (`SvcWorld`): `startRes v` /
`stopRes v` is the value `withTimeout` returned for instance `v`'s `Start` /
`Stop` during the phase (at most one call per instance per phase), where a
deadline expiry surfaces as `ctx.Err() = context.DeadlineExceeded` on the
chain.  `isServicer v` is the `instance.(Servicer)` type assertion.
-/

/-- Oracle for the duck-typed `Servicer` capability and for the outcomes of
the bounded `withTimeout` lifecycle calls. -/
structure SvcWorld where
  isServicer : Value → Bool
  startRes : Value → Option Err
  stopRes : Value → Option Err

/-- `time.Duration` in nanoseconds. -/
abbrev Duration := Nat

/-- `DefaultStartTimeout = 30 * time.Second` (di.go). -/
def DefaultStartTimeout : Duration := 30 * 1000000000

/-- `DefaultStopTimeout = 30 * time.Second` (di.go). -/
def DefaultStopTimeout : Duration := 30 * 1000000000

/-- Context values as far as their provenance matters: the caller's external
context, `context.Background()`, and `context.WithTimeout(parent, d)`. -/
inductive Ctx where
  | external
  | background
  | withTimeout (parent : Ctx) (d : Duration)
deriving DecidableEq, Repr

/-- The originating context a derived context chains back to. -/
def Ctx.root : Ctx → Ctx
  | .external => .external
  | .background => .background
  | .withTimeout parent _ => parent.root

/-- `App` (di.go): a container reference, an optional logger (modelled only
by its presence) and the two phase timeouts. -/
structure App where
  container : Container
  hasLogger : Bool
  startTimeout : Duration
  stopTimeout : Duration

/-- `AppOpt` functional options. -/
abbrev AppOpt := App → App

/-- `WithLogger` (the logger itself is irrelevant to the claims). -/
def WithLogger : AppOpt := fun app => { app with hasLogger := true }

/-- `WithStartTimeout` (di.go). -/
def WithStartTimeout (timeout : Duration) : AppOpt :=
  fun app => { app with startTimeout := timeout }

/-- `WithStopTimeout` (di.go). -/
def WithStopTimeout (timeout : Duration) : AppOpt :=
  fun app => { app with stopTimeout := timeout }

/-- `NewApp` (di.go): defaults first, then the options applied in order. -/
def NewApp (container : Container) (opts : List AppOpt) : App :=
  opts.foldl (fun app opt => opt app)
    { container := container, hasLogger := false,
      startTimeout := DefaultStartTimeout, stopTimeout := DefaultStopTimeout }

/-- The service-collection loop of `App.Start`: walk `instancesList` in
order, keeping the instances that satisfy the `Servicer` assertion. -/
def collectServices (S : SvcWorld) : List Value → List Value
  | [] => []
  | v :: rest =>
    if S.isServicer v then v :: collectServices S rest else collectServices S rest

/-- The service-collection loop of `App.Stop`: walk `instancesList` from the
last index down to 0, keeping the `Servicer` instances. -/
def collectServicesRev (S : SvcWorld) (l : List Value) : List Value :=
  collectServices S l.reverse

/-- The `App.Start` service loop: invoke each `Start` sequentially, breaking
at the first failure.  Returns the instances actually invoked, in order, and
the breaking error. -/
def startLoop (S : SvcWorld) : List Value → List Value × Option Err
  | [] => ([], none)
  | v :: rest =>
    match S.startRes v with
    | some e => ([v], some e)
    | none =>
      let (tr, err) := startLoop S rest
      (v :: tr, err)

/-- The `App.Stop` service loop: invoke every `Stop`, never breaking, and
keep only the first non-nil error.  Returns the instances invoked, in order,
and that first error. -/
def stopLoop (S : SvcWorld) : List Value → List Value × Option Err
  | [] => ([], none)
  | v :: rest =>
    let (tr, err) := stopLoop S rest
    (v :: tr,
      match S.stopRes v with
      | some e => some e
      | none => err)

/-- `errors.Is(err, context.DeadlineExceeded)` on a possibly-nil error. -/
def optErrIsDeadline : Option Err → Bool
  | none => false
  | some e => errIs e Err.deadlineExceeded

/-- `App.Start` (di.go): collect the `Servicer` instances in creation order,
run the start loop; both switch branches return the error unchanged (they
differ only in logging), and success returns nil. -/
def App.StartPhase (S : SvcWorld) (app : App) : List Value × Option Err :=
  startLoop S (collectServices S app.container.instancesList)

/-- `App.Stop` (di.go): collect the `Servicer` instances in reverse creation
order, run the stop loop; a first error satisfying
`errors.Is(err, context.DeadlineExceeded)` is only logged and nil is
returned, any other first error is returned. -/
def App.StopPhase (S : SvcWorld) (app : App) : List Value × Option Err :=
  let r := stopLoop S (collectServicesRev S app.container.instancesList)
  (r.1, if optErrIsDeadline r.2 then none else r.2)

/-- `App.runStart` (di.go): derive a bounded sub-context when the configured
start timeout is positive, else keep the given context. -/
def App.runStartCtx (app : App) (ctx : Ctx) : Ctx :=
  if 0 < app.startTimeout then Ctx.withTimeout ctx app.startTimeout else ctx

/-- `App.runStop` (di.go): same derivation from the stop timeout. -/
def App.runStopCtx (app : App) (ctx : Ctx) : Ctx :=
  if 0 < app.stopTimeout then Ctx.withTimeout ctx app.stopTimeout else ctx

/-- What a `Run` execution did: the context its start phase ran under, the
context its stop phase ran under, and the returned error. -/
structure RunTrace where
  startCtx : Ctx
  stopCtx : Ctx
  ret : Option Err
deriving Repr

/-- `App.Run` (di.go), called with the caller's external context:
`runStart(ctx)`; on failure `runStop(ctx)` (its result discarded) and the
start error is returned; on success it blocks until the external context is
cancelled and returns `runStop(context.Background())`. -/
def App.Run (S : SvcWorld) (app : App) : RunTrace :=
  let sctx := app.runStartCtx Ctx.external
  match (App.StartPhase S app).2 with
  | some e =>
    { startCtx := sctx, stopCtx := app.runStopCtx Ctx.external, ret := some e }
  | none =>
    { startCtx := sctx, stopCtx := app.runStopCtx Ctx.background,
      ret := (App.StopPhase S app).2 }

/-!
## Concrete scenarios

Small closed worlds used to evaluate the engine at specific inputs.
-/

/-- Project the container out of a resolution result (`New` on fuel
exhaustion, which never occurs at the fuels used). -/
def afterResolve (r : Option (Container × Except Err Value)) : Container :=
  match r with
  | some (ca, _) => ca
  | none => New

/-- Two concrete types: requests `0` (root) and `1` (dep), produced types
`10` and `11`; no interfaces. -/
def W1 : TypeWorld :=
  { assignable := fun a b => (a == 10 && b == 0) || (a == 11 && b == 1),
    implTo := fun _ _ => false,
    isInterface := fun _ => false }

/-- Root provider: produces `10` from one parameter of type `1`. -/
def pRoot1 : Provider :=
  { name := "NewRoot", returnType := 10, paramTypes := [1],
    initFunc := fun _ => Except.ok 50, args := [] }

/-- Dependency provider: produces `11` from nothing. -/
def pDep1 : Provider :=
  { name := "NewDep", returnType := 11, paramTypes := [],
    initFunc := fun _ => Except.ok 60, args := [] }

/-- Container with the root registered before its dependency. -/
def c1 : Container := { New with providers := [pRoot1, pDep1] }

/-- The container state after resolving the root type `0`. -/
def c1After : Container := afterResolve (Container.Resolve W1 9 c1 false 0 "")

/-- World for a single provider whose constructor fails. -/
def WB : TypeWorld :=
  { assignable := fun a b => a == 20 && b == 3,
    implTo := fun _ _ => false,
    isInterface := fun _ => false }

/-- Parameterless provider whose constructor reports an error. -/
def pBoom : Provider :=
  { name := "NewBoom", returnType := 20, paramTypes := [],
    initFunc := fun _ => Except.error (Err.msg "boom"), args := [] }

/-- Container holding only the failing provider. -/
def cBoom : Container := { New with providers := [pBoom] }

/-- World for the mutual cycle `A(B)`, `B(A)`: requests `0`/`1`, produced
types `10`/`11`. -/
def W2 : TypeWorld :=
  { assignable := fun a b => (a == 10 && b == 0) || (a == 11 && b == 1),
    implTo := fun _ _ => false,
    isInterface := fun _ => false }

/-- Provider `A`, requiring `B`'s type. -/
def pA2 : Provider :=
  { name := "NewA", returnType := 10, paramTypes := [1],
    initFunc := fun _ => Except.ok 1, args := [] }

/-- Provider `B`, requiring `A`'s type. -/
def pB2 : Provider :=
  { name := "NewB", returnType := 11, paramTypes := [0],
    initFunc := fun _ => Except.ok 2, args := [] }

/-- Container with the two mutually dependent providers. -/
def cCyc : Container := { New with providers := [pA2, pB2] }

/-- World with one interface type `5` implemented by the produced type `7`. -/
def W3 : TypeWorld :=
  { assignable := fun a b => a == 7 && b == 7,
    implTo := fun a b => a == 7 && b == 5,
    isInterface := fun t => t == 5 }

/-- Parameterless provider producing concrete type `7`. -/
def pImpl3 : Provider :=
  { name := "NewImpl", returnType := 7, paramTypes := [],
    initFunc := fun _ => Except.ok 99, args := [] }

/-- Container holding only that provider. -/
def cIface : Container := { New with providers := [pImpl3] }

/-- Creation-order list after resolving first the interface `5`, then the
concrete type `7`, on the same container. -/
def twiceList : List Value :=
  (afterResolve (Container.Resolve W3 9
    (afterResolve (Container.Resolve W3 9 cIface true 5 "tgt")) false 7 "tgt")).instancesList

/-- World in which no request has any provider at all. -/
def W4 : TypeWorld :=
  { assignable := fun _ _ => false, implTo := fun _ _ => false,
    isInterface := fun _ => false }

/-- Provider with two parameters: type `1` carries an `Arg` override `77`,
type `2` has no override. -/
def pMix4 : Provider :=
  { name := "NewMix", returnType := 30, paramTypes := [1, 2],
    initFunc := fun vs => Except.ok (vs.headD 0), args := [(1, 77)] }

/-- Container with an empty provider list but a cached instance `88` for the
non-overridden parameter type `2`. -/
def cMix4 : Container := { New with providers := [pMix4], instances := [(2, 88)] }

/-- Lifecycle oracle: every instance is a `Servicer` whose `Start` fails. -/
def S6 : SvcWorld :=
  { isServicer := fun _ => true,
    startRes := fun _ => some (Err.msg "startboom"),
    stopRes := fun _ => none }

/-- App over one instance, default options. -/
def app6 : App := NewApp { New with instancesList := [1] } []

/-- Lifecycle oracle: the only instance's `Stop` reports
`context.DeadlineExceeded` (e.g. it returned `ctx.Err()` after the stop
deadline expired). -/
def S7 : SvcWorld :=
  { isServicer := fun _ => true,
    startRes := fun _ => none,
    stopRes := fun _ => some Err.deadlineExceeded }

/-- App over one instance, default options. -/
def app7 : App := NewApp { New with instancesList := [1] } []

/-- Lifecycle oracle: in stop order, instance `1` fails with an ordinary
error before the deadline, then the phase deadline expires during instance
`2`'s `Stop`. -/
def S9 : SvcWorld :=
  { isServicer := fun _ => true,
    startRes := fun _ => none,
    stopRes := fun v => if v == 1 then some (Err.msg "boom") else some Err.deadlineExceeded }

/-- App over the two instances, created in the order `[2, 1]`. -/
def app9 : App := NewApp { New with instancesList := [2, 1] } []

/-- Does the error text carry any `[constructor: ...]` provider-name
context anywhere on its `%w` chain? -/
def hasConstructorCtx : Err → Bool
  | .wrapConstructor _ _ => true
  | .wrapTarget e _ => hasConstructorCtx e
  | _ => false

/-- Rank function witnessing acyclicity of the root/dep scenario. -/
def R1 : Ty → Nat := fun t => if t = 0 then 1 else 0

/-- Lifecycle oracle over instances `[1, 2, 3]`: instance `2` fails both
its `Start` and its `Stop` with ordinary errors, the others succeed. -/
def S7w : SvcWorld :=
  { isServicer := fun _ => true,
    startRes := fun v => if v == 2 then some (Err.msg "s2start") else none,
    stopRes := fun v => if v == 2 then some (Err.msg "s2stop") else none }

/-- App over the three instances in creation order `[1, 2, 3]`. -/
def app7w : App := NewApp { New with instancesList := [1, 2, 3] } []

/-- Lifecycle oracle over instances `[1, 2, 3]`: the phase deadline expires
at instance `2` in both phases. -/
def S9w : SvcWorld :=
  { isServicer := fun _ => true,
    startRes := fun v => if v == 2 then some Err.deadlineExceeded else none,
    stopRes := fun v => if v == 2 then some Err.deadlineExceeded else none }

/-- App over the three instances in creation order `[1, 2, 3]`. -/
def app9w : App := NewApp { New with instancesList := [1, 2, 3] } []

/-- Lifecycle oracle whose starts all succeed and whose only stop fails
with an ordinary error. -/
def S6ok : SvcWorld :=
  { isServicer := fun _ => true,
    startRes := fun _ => none,
    stopRes := fun _ => some (Err.msg "stopboom") }

/-!
## Specification predicates

The dependency graph of by-type resolution, invariants of the singleton
cache and of the in-progress marker set, cycle-walk hypotheses, and the
override-or-cache argument view.  `Edge t u` holds when resolving `t` picks
a provider one of whose parameter types `u` is not satisfied by an `Arg`
override, i.e. exactly the recursive `getInstanceByType` calls
`buildInstance` makes; `Reach` is its reflexive transitive closure.
-/

/-- One traversed dependency edge of by-type resolution. -/
def Edge (W : TypeWorld) (ps : List Provider) (t u : Ty) : Prop :=
  ∃ p, findProviderByType W ps t = some p ∧ u ∈ p.paramTypes ∧ lookupType p.args u = none

/-- Types reachable along traversed dependency edges. -/
inductive Reach (W : TypeWorld) (ps : List Provider) : Ty → Ty → Prop
  | refl (t : Ty) : Reach W ps t t
  | step {t u v : Ty} : Edge W ps t u → Reach W ps u v → Reach W ps t v

/-- The singleton cache is closed under traversed dependency edges: every
cached type's traversed dependencies are cached too. -/
def ClosedInst (W : TypeWorld) (ps : List Provider) (m : List (Ty × Value)) : Prop :=
  ∀ s u, lookupType m s ≠ none → Edge W ps s u → lookupType m u ≠ none

/-- Every in-progress marker belongs to the provider of some ancestor
request `a` that stepped to a type `u` from which the current request is
reachable. -/
def AncOK (W : TypeWorld) (ps : List Provider) (A : List Ty) (t : Ty) : Prop :=
  ∀ x ∈ A, ∃ a q u, findProviderByType W ps a = some q ∧ q.returnType = x ∧
    Edge W ps a u ∧ Reach W ps u t

/-- The type requested at the head of the remaining chain (the closing
request `tStar` once the chain is exhausted). -/
def chainHead : List (Ty × Provider) → Ty → Ty
  | [], tStar => tStar
  | (t, _) :: _, _ => t

/-- The walk hypotheses: each link `(t, q)` is an uncached request `t`
served by provider `q`, whose single, non-overridden parameter is the next
link's request; `q` is not yet mid-construction.  At the end, the closing
request `tStar` is served by `qStar`, which by then is mid-construction. -/
def ChainHyps (W : TypeWorld) (tStar : Ty) (qStar : Provider) :
    Container → List (Ty × Provider) → Prop
  | c, [] =>
    qStar.returnType ∈ c.resolvedMap ∧ lookupType c.instances tStar = none ∧
      findProviderByType W c.providers tStar = some qStar
  | c, (t, q) :: rest =>
    lookupType c.instances t = none ∧
      findProviderByType W c.providers t = some q ∧
      q.paramTypes = [chainHead rest tStar] ∧
      lookupType q.args (chainHead rest tStar) = none ∧
      q.returnType ∉ c.resolvedMap ∧
      ChainHyps W tStar qStar
        { c with resolvedMap := q.returnType :: c.resolvedMap } rest

/-- The argument value actually used for parameter type `pt`: the override
when one is attached, else the cached instance. -/
def mixedArg (p : Provider) (c : Container) (pt : Ty) : Value :=
  match lookupType p.args pt with
  | some v => v
  | none => (lookupType c.instances pt).getD 0

/-!
## State-evolution lemmas

What one resolution call does to the container: providers untouched, the
in-progress marker set restored on every exit path, the caches growing
append-only.
-/

/-- Relation between the container before and after one resolution step:
same providers, marker set restored, caches extended only. -/
def Keep (c cNew : Container) : Prop :=
  cNew.providers = c.providers ∧ cNew.resolvedMap = c.resolvedMap ∧
    (∃ pre, cNew.instances = pre ++ c.instances) ∧
    (∃ tail, cNew.instancesList = c.instancesList ++ tail)

theorem keep_refl (c : Container) : Keep c c :=
  ⟨rfl, rfl, ⟨[], rfl⟩, ⟨[], by simp⟩⟩

theorem keep_trans {a b c : Container} (h1 : Keep a b) (h2 : Keep b c) : Keep a c := by
  obtain ⟨p1, r1, ⟨pre1, i1⟩, ⟨t1, l1⟩⟩ := h1
  obtain ⟨p2, r2, ⟨pre2, i2⟩, ⟨t2, l2⟩⟩ := h2
  exact ⟨p2.trans p1, r2.trans r1,
    ⟨pre2 ++ pre1, by rw [i2, i1, List.append_assoc]⟩,
    ⟨t1 ++ t2, by rw [l2, l1, List.append_assoc]⟩⟩

theorem removeFirst_cons_self (t : Ty) (l : List Ty) : removeFirst (t :: l) t = l := by
  simp [removeFirst]

theorem lookupType_append_ne_none (pre m : List (Ty × Value)) (t : Ty)
    (h : lookupType m t ≠ none) : lookupType (pre ++ m) t ≠ none := by
  induction pre with
  | nil => simpa using h
  | cons kv rest ih =>
    obtain ⟨k, v⟩ := kv
    simp only [List.cons_append, lookupType]
    split
    · simp
    · exact ih

theorem findProviderByType_mem (W : TypeWorld) (ps : List Provider) (t : Ty) (p : Provider)
    (h : findProviderByType W ps t = some p) : p ∈ ps := by
  induction ps with
  | nil => simp [findProviderByType] at h
  | cons q rest ih =>
    simp only [findProviderByType] at h
    split at h
    · simp_all
    · exact List.mem_cons_of_mem _ (ih h)

theorem keep_resolveArgs (W : TypeWorld) (fuel : Nat)
    (hg : ∀ c t r, getInstanceByType W fuel c t = some r → Keep c r.1) :
    ∀ l c p r, resolveArgs W fuel c p l = some r → Keep c r.1 := by
  intro l
  induction l with
  | nil =>
    intro c p r h
    simp only [resolveArgs] at h
    cases h
    exact keep_refl c
  | cons pt rest ih =>
    intro c p r h
    simp only [resolveArgs] at h
    split at h
    · -- override branch
      split at h
      · exact absurd h (by simp)
      next c2 e heq =>
        cases h
        exact ih c p (c2, Except.error e) heq
      next c2 vs heq =>
        cases h
        exact ih c p (c2, Except.ok vs) heq
    · -- recursive resolution branch
      split at h
      · exact absurd h (by simp)
      next c2 e heq =>
        cases h
        exact hg c pt (c2, Except.error e) heq
      next c2 v heq =>
        split at h
        · exact absurd h (by simp)
        next c3 e heq2 =>
          cases h
          exact keep_trans (hg c pt (c2, Except.ok v) heq)
            (ih c2 p (c3, Except.error e) heq2)
        next c3 vs heq2 =>
          cases h
          exact keep_trans (hg c pt (c2, Except.ok v) heq)
            (ih c2 p (c3, Except.ok vs) heq2)

theorem keep_getBuild (W : TypeWorld) : ∀ fuel : Nat,
    (∀ c t r, getInstanceByType W fuel c t = some r → Keep c r.1) ∧
    (∀ c p r, buildInstance W fuel c p = some r → Keep c r.1) := by
  intro fuel
  induction fuel with
  | zero =>
    constructor
    · intro c t r h; simp [getInstanceByType] at h
    · intro c p r h; simp [buildInstance] at h
  | succ f ih =>
    constructor
    · intro c t r h
      simp only [getInstanceByType] at h
      split at h
      · cases h; exact keep_refl c
      · split at h
        · cases h; exact keep_refl c
        next p hp =>
          split at h
          · exact absurd h (by simp)
          next c2 e heq =>
            cases h
            exact ih.2 c p (c2, Except.error e) heq
          next c2 v heq =>
            cases h
            obtain ⟨hpr, hrm, ⟨pre, hin⟩, hl⟩ := ih.2 c p (c2, Except.ok v) heq
            have hin2 : c2.instances = pre ++ c.instances := hin
            exact ⟨hpr, hrm, ⟨(t, v) :: pre, by simp [hin2]⟩, hl⟩
    · intro c p r h
      simp only [buildInstance] at h
      split at h
      · cases h; exact keep_refl c
      next hguard =>
        split at h
        · exact absurd h (by simp)
        next c2 e heq =>
          cases h
          obtain ⟨hpr, hrm, hin, hl⟩ :=
            keep_resolveArgs W f ih.1 p.paramTypes _ p (c2, Except.error e) heq
          have hrm2 : c2.resolvedMap = p.returnType :: c.resolvedMap := hrm
          exact ⟨hpr, by rw [hrm2, removeFirst_cons_self], hin, hl⟩
        next c2 args heq =>
          split at h
          next e heq2 =>
            cases h
            obtain ⟨hpr, hrm, hin, hl⟩ :=
              keep_resolveArgs W f ih.1 p.paramTypes _ p (c2, Except.ok args) heq
            have hrm2 : c2.resolvedMap = p.returnType :: c.resolvedMap := hrm
            exact ⟨hpr, by rw [hrm2, removeFirst_cons_self], hin, hl⟩
          next result heq2 =>
            cases h
            obtain ⟨hpr, hrm, hin, ⟨tail, hl⟩⟩ :=
              keep_resolveArgs W f ih.1 p.paramTypes _ p (c2, Except.ok args) heq
            have hrm2 : c2.resolvedMap = p.returnType :: c.resolvedMap := hrm
            have hl2 : c2.instancesList = c.instancesList ++ tail := hl
            exact ⟨hpr, by rw [hrm2, removeFirst_cons_self], hin,
              ⟨tail ++ [result], by rw [hl2, List.append_assoc]⟩⟩

/-!
## The dependency graph of by-type resolution

`Edge t u` holds when resolving `t` picks a provider one of whose parameter
types `u` is not satisfied by an `Arg` override, i.e. exactly the recursive
`getInstanceByType` calls `buildInstance` makes.  `Reach` is its reflexive
transitive closure.
-/

theorem reach_snoc {W : TypeWorld} {ps : List Provider} {a b c : Ty}
    (h : Reach W ps a b) (e : Edge W ps b c) : Reach W ps a c := by
  induction h with
  | refl t => exact Reach.step e (Reach.refl c)
  | step e1 _ ih => exact Reach.step e1 (ih e)

theorem rank_le_of_reach {W : TypeWorld} {ps : List Provider} {R : Ty → Nat}
    (HR : ∀ t u, Edge W ps t u → R u < R t) {a b : Ty}
    (h : Reach W ps a b) : R b ≤ R a := by
  induction h with
  | refl t => exact Nat.le_refl _
  | step e1 _ ih => exact ih.trans (Nat.le_of_lt (HR _ _ e1))

theorem lookupType_cons_ne_none {m : List (Ty × Value)} {u : Ty} (k : Ty) (v : Value)
    (h : lookupType m u ≠ none) : lookupType ((k, v) :: m) u ≠ none := by
  simp only [lookupType]
  split <;> simp_all

theorem closedInst_nil (W : TypeWorld) (ps : List Provider) : ClosedInst W ps [] := by
  intro s u hs _
  simp [lookupType] at hs

/-- Argument-loop lemma: if every non-overridden parameter can be resolved
by type (preserving the invariants and restoring the marker set `A`), the
whole `resolveArgs` loop succeeds, preserves the invariants, and leaves
every non-overridden parameter type cached. -/
theorem resolveArgs_success (W : TypeWorld) (ps : List Provider) (p : Provider)
    (A : List Ty) (fuel : Nat)
    (Hg : ∀ pt c, pt ∈ p.paramTypes → lookupType p.args pt = none →
      c.providers = ps → ClosedInst W ps c.instances → c.resolvedMap = A →
      ∃ cOut v, getInstanceByType W fuel c pt = some (cOut, Except.ok v) ∧
        cOut.providers = ps ∧ cOut.resolvedMap = A ∧ ClosedInst W ps cOut.instances ∧
        (∃ pre, cOut.instances = pre ++ c.instances) ∧
        lookupType cOut.instances pt ≠ none) :
    ∀ params, (∀ pt ∈ params, pt ∈ p.paramTypes) →
      ∀ c, c.providers = ps → ClosedInst W ps c.instances → c.resolvedMap = A →
        ∃ cOut args, resolveArgs W fuel c p params = some (cOut, Except.ok args) ∧
          cOut.providers = ps ∧ cOut.resolvedMap = A ∧ ClosedInst W ps cOut.instances ∧
          (∃ pre, cOut.instances = pre ++ c.instances) ∧
          (∀ pt ∈ params, lookupType p.args pt = none →
            lookupType cOut.instances pt ≠ none) := by
  intro params
  induction params with
  | nil =>
    intro _ c hprov hclosed hrm
    refine ⟨c, [], by simp [resolveArgs], hprov, hrm, hclosed, ⟨[], rfl⟩, by simp⟩
  | cons pt rest ih =>
    intro hsub c hprov hclosed hrm
    have hptmem : pt ∈ p.paramTypes := hsub pt (by simp)
    have hrestsub : ∀ u ∈ rest, u ∈ p.paramTypes := fun u hu => hsub u (by simp [hu])
    cases hov : lookupType p.args pt with
    | some v =>
      obtain ⟨cOut, args, hrec, hprov2, hrm2, hclosed2, hpre, hcache⟩ :=
        ih hrestsub c hprov hclosed hrm
      refine ⟨cOut, v :: args, ?_, hprov2, hrm2, hclosed2, hpre, ?_⟩
      · simp only [resolveArgs, hov, hrec]
      · intro u hu hovu
        rcases List.mem_cons.mp hu with rfl | hu2
        · rw [hov] at hovu; cases hovu
        · exact hcache u hu2 hovu
    | none =>
      obtain ⟨cMid, v, hget, hprovM, hrmM, hclosedM, ⟨preM, hpreM⟩, hcacheM⟩ :=
        Hg pt c hptmem hov hprov hclosed hrm
      obtain ⟨cOut, args, hrec, hprov2, hrm2, hclosed2, ⟨pre2, hpre2⟩, hcache⟩ :=
        ih hrestsub cMid hprovM hclosedM hrmM
      refine ⟨cOut, v :: args, ?_, hprov2, hrm2, hclosed2,
        ⟨pre2 ++ preM, by rw [hpre2, hpreM, List.append_assoc]⟩, ?_⟩
      · simp only [resolveArgs, hov, hget, hrec]
      · intro u hu hovu
        rcases List.mem_cons.mp hu with rfl | hu2
        · rw [hpre2]
          exact lookupType_append_ne_none pre2 cMid.instances u hcacheM
        · exact hcache u hu2 hovu

/-- Main success lemma for by-type resolution, by strong induction on the
rank of the requested type: under a duplicate-free provider list, a rank
function witnessing acyclicity, full provider coverage of the reachable
types, and error-free constructors, `getInstanceByType` succeeds, restores
the marker set, grows the cache append-only keeping it edge-closed, and
caches the requested type. -/
theorem getInstanceByType_success (W : TypeWorld) (ps : List Provider) (root : Ty)
    (R : Ty → Nat)
    (HN : (ps.map Provider.returnType).Nodup)
    (HR : ∀ t u, Edge W ps t u → R u < R t)
    (HC : ∀ u, Reach W ps root u → (findProviderByType W ps u).isSome)
    (HK : ∀ p ∈ ps, ∀ args, ∃ v, p.initFunc args = Except.ok v) :
    ∀ n t c fuel, R t ≤ n → 2 * R t + 2 ≤ fuel → Reach W ps root t →
      c.providers = ps → ClosedInst W ps c.instances → AncOK W ps c.resolvedMap t →
      ∃ cOut v, getInstanceByType W fuel c t = some (cOut, Except.ok v) ∧
        cOut.providers = ps ∧ cOut.resolvedMap = c.resolvedMap ∧
        ClosedInst W ps cOut.instances ∧ (∃ pre, cOut.instances = pre ++ c.instances) ∧
        lookupType cOut.instances t ≠ none := by
  intro n
  induction n using Nat.strong_induction_on with
  | _ n IH =>
  intro t c fuel hn hfuel hreach hprov hclosed hanc
  obtain ⟨f2, rfl⟩ : ∃ f2, fuel = f2 + 2 := ⟨fuel - 2, by omega⟩
  cases hl : lookupType c.instances t with
  | some v =>
    exact ⟨c, v, by simp [getInstanceByType, hl], hprov, rfl, hclosed, ⟨[], rfl⟩,
      by simp [hl]⟩
  | none =>
    obtain ⟨p, hp⟩ := Option.isSome_iff_exists.mp (HC t hreach)
    have hpc : findProviderByType W c.providers t = some p := by rw [hprov]; exact hp
    have hpmem : p ∈ ps := findProviderByType_mem W ps t p hp
    have hguard : p.returnType ∉ c.resolvedMap := by
      intro hmem
      obtain ⟨a, q, u, hfq, hqrt, hedgeA, hru⟩ := hanc _ hmem
      have hqmem : q ∈ ps := findProviderByType_mem W ps a q hfq
      have hqp : q = p :=
        List.inj_on_of_nodup_map HN hqmem hpmem (by rw [hqrt])
      have hedgeT : Edge W ps t u := by
        obtain ⟨q2, hfq2, hupar, hov⟩ := hedgeA
        rw [hfq] at hfq2
        cases hfq2
        exact ⟨p, hp, by rw [← hqp]; exact hupar, by rw [← hqp]; exact hov⟩
      have h1 : R u < R t := HR t u hedgeT
      have h2 : R t ≤ R u := rank_le_of_reach HR hru
      omega
    have HgInst : ∀ pt c2, pt ∈ p.paramTypes → lookupType p.args pt = none →
        c2.providers = ps → ClosedInst W ps c2.instances →
        c2.resolvedMap = p.returnType :: c.resolvedMap →
        ∃ cOut v, getInstanceByType W f2 c2 pt = some (cOut, Except.ok v) ∧
          cOut.providers = ps ∧ cOut.resolvedMap = p.returnType :: c.resolvedMap ∧
          ClosedInst W ps cOut.instances ∧
          (∃ pre, cOut.instances = pre ++ c2.instances) ∧
          lookupType cOut.instances pt ≠ none := by
      intro pt c2 hptmem hov hprov2 hclosed2 hrm2
      have hedge : Edge W ps t pt := ⟨p, hp, hptmem, hov⟩
      have hlt : R pt < R t := HR t pt hedge
      have hreach2 : Reach W ps root pt := reach_snoc hreach hedge
      have hanc2 : AncOK W ps c2.resolvedMap pt := by
        rw [hrm2]
        intro x hx
        rcases List.mem_cons.mp hx with rfl | hx2
        · exact ⟨t, p, pt, hp, rfl, hedge, Reach.refl pt⟩
        · obtain ⟨a, q, u, hfq, hqrt, hedgeA, hru⟩ := hanc x hx2
          exact ⟨a, q, u, hfq, hqrt, hedgeA, reach_snoc hru hedge⟩
      obtain ⟨cOut, v, hget, hprovO, hrmO, hclosedO, hpreO, hcacheO⟩ :=
        IH (R pt) (by omega) pt c2 f2 (Nat.le_refl _) (by omega) hreach2 hprov2
          hclosed2 hanc2
      exact ⟨cOut, v, hget, hprovO, by rw [hrmO, hrm2], hclosedO, hpreO, hcacheO⟩
    obtain ⟨c2, args, hargs, hprov2, hrm2, hclosed2, ⟨pre2, hpre2⟩, hcache2⟩ :=
      resolveArgs_success W ps p (p.returnType :: c.resolvedMap) f2 HgInst
        p.paramTypes (fun _ h => h)
        { c with resolvedMap := p.returnType :: c.resolvedMap } hprov hclosed rfl
    obtain ⟨res, hres⟩ := HK p hpmem args
    have hpre2c : c2.instances = pre2 ++ c.instances := hpre2
    have hbuild : buildInstance W (f2 + 1) c p =
        some ({ c2 with
                  resolvedMap := removeFirst c2.resolvedMap p.returnType,
                  instancesList := c2.instancesList ++ [res] },
              Except.ok res) := by
      simp only [buildInstance, if_neg hguard, hargs, hres]
    have hrmOut : removeFirst c2.resolvedMap p.returnType = c.resolvedMap := by
      rw [hrm2]; exact removeFirst_cons_self _ _
    have hget2 : getInstanceByType W (f2 + 2) c t =
        some ({ c2 with
                  instances := (t, res) :: c2.instances,
                  resolvedMap := removeFirst c2.resolvedMap p.returnType,
                  instancesList := c2.instancesList ++ [res] },
              Except.ok res) := by
      simp only [getInstanceByType, hl, hpc, hbuild]
    refine ⟨_, res, hget2, hprov2, hrmOut, ?_,
      ⟨(t, res) :: pre2, by simp [hpre2c]⟩, by simp [lookupType]⟩
    intro s u hs hedgeSU
    by_cases hst : t = s
    · subst hst
      obtain ⟨p2, hp2, hupar, hov⟩ := hedgeSU
      rw [hp] at hp2
      cases hp2
      exact lookupType_cons_ne_none t res (hcache2 u hupar hov)
    · have hs2 : lookupType c2.instances s ≠ none := by
        simpa [lookupType, hst] using hs
      exact lookupType_cons_ne_none t res (hclosed2 s u hs2 hedgeSU)

/-- Types reachable from a cached type are all cached (edge-closure of the
singleton cache, iterated). -/
theorem reach_cached (W : TypeWorld) (ps : List Provider) (m : List (Ty × Value))
    (hclosed : ClosedInst W ps m) :
    ∀ t u, Reach W ps t u → lookupType m t ≠ none → lookupType m u ≠ none := by
  intro t u h
  induction h with
  | refl t => exact fun ht => ht
  | step e _ ih => exact fun ht => ih (hclosed _ _ ht e)

/-!
## Cycle traversal

A resolution path that walks single-parameter providers link by link and
then re-requests a type whose provider is already mid-construction.
`ChainHyps` describes the walk relative to the container state, threading
the marker insertions exactly as `buildInstance` performs them.
-/

/-- Walking a chain that closes a cycle terminates with the cycle error of
the mid-construction provider, restores the container unchanged, and does so
uniformly for every sufficient fuel. -/
theorem chain_cycle_error (W : TypeWorld) (tStar : Ty) (qStar : Provider) :
    ∀ chain c, ChainHyps W tStar qStar c chain →
      ∀ fuel, 2 * chain.length + 2 ≤ fuel →
        ∃ e, getInstanceByType W fuel c (chainHead chain tStar) =
            some (c, Except.error e) ∧
          unwrapAll e = Err.circular qStar.name := by
  intro chain
  induction chain with
  | nil =>
    intro c hch fuel hfuel
    obtain ⟨hmem, hmiss, hfind⟩ := hch
    obtain ⟨f, rfl⟩ : ∃ f, fuel = f + 2 := ⟨fuel - 2, by omega⟩
    refine ⟨Err.circular qStar.name, ?_, rfl⟩
    have hbuild : buildInstance W (f + 1) c qStar =
        some (c, Except.error (Err.circular qStar.name)) := by
      simp only [buildInstance, if_pos hmem]
    simp only [getInstanceByType, chainHead, hmiss, hfind, hbuild]
  | cons tq rest ih =>
    obtain ⟨t, q⟩ := tq
    intro c hch fuel hfuel
    obtain ⟨hmiss, hfind, hparams, hov, hnotmem, hrest⟩ := hch
    obtain ⟨f, rfl⟩ : ∃ f, fuel = f + 2 := ⟨fuel - 2, by omega⟩
    have hfuel2 : 2 * rest.length + 2 ≤ f := by
      simp only [List.length_cons] at hfuel; omega
    obtain ⟨e, hget, hcore⟩ := ih _ hrest f hfuel2
    have hargs : resolveArgs W f
        { c with resolvedMap := q.returnType :: c.resolvedMap } q
        [chainHead rest tStar] =
        some ({ c with resolvedMap := q.returnType :: c.resolvedMap },
          Except.error (Err.wrapConstructor e q.name)) := by
      simp only [resolveArgs, hov, hget]
    have hbuild : buildInstance W (f + 1) c q =
        some (c, Except.error (Err.wrapConstructor e q.name)) := by
      simp only [buildInstance, if_neg hnotmem, hparams, hargs]
      simp [removeFirst_cons_self]
    refine ⟨Err.wrapConstructor e q.name, ?_, by simp [unwrapAll, hcore]⟩
    simp only [getInstanceByType, chainHead, hmiss, hfind, hbuild]

/-!
## Singleton-cache lemmas
-/

/-- A cache hit returns the cached instance with no state change and no
construction. -/
theorem getInstanceByType_cached (W : TypeWorld) (fuel : Nat) (c : Container) (t : Ty)
    (v : Value) (h : lookupType c.instances t = some v) :
    getInstanceByType W (fuel + 1) c t = some (c, Except.ok v) := by
  simp [getInstanceByType, h]

/-- A cache hit on an interface request likewise returns the cached
instance unchanged. -/
theorem getInstanceByInterface_cached (W : TypeWorld) (fuel : Nat) (c : Container) (t : Ty)
    (v : Value) (h : lookupType c.instances t = some v) :
    getInstanceByInterface W (fuel + 1) c t = some (c, Except.ok v) := by
  simp [getInstanceByInterface, h]

/-- A successful by-type resolution leaves the requested type cached with
the returned value. -/
theorem getInstanceByType_caches (W : TypeWorld) (fuel : Nat) (c : Container) (t : Ty)
    (cOut : Container) (v : Value)
    (h : getInstanceByType W fuel c t = some (cOut, Except.ok v)) :
    lookupType cOut.instances t = some v := by
  match fuel with
  | 0 => simp [getInstanceByType] at h
  | fuel + 1 =>
    simp only [getInstanceByType] at h
    split at h
    · cases h; assumption
    · split at h
      · cases h
      · split at h
        · exact absurd h (by simp)
        · cases h
        next c2 v2 heq =>
          cases h
          simp [lookupType]

/-- A successful by-interface resolution leaves the interface cached with
the returned value. -/
theorem getInstanceByInterface_caches (W : TypeWorld) (fuel : Nat) (c : Container) (t : Ty)
    (cOut : Container) (v : Value)
    (h : getInstanceByInterface W fuel c t = some (cOut, Except.ok v)) :
    lookupType cOut.instances t = some v := by
  match fuel with
  | 0 => simp [getInstanceByInterface] at h
  | fuel + 1 =>
    simp only [getInstanceByInterface] at h
    split at h
    · cases h; assumption
    · split at h
      · cases h
      · split at h
        · exact absurd h (by simp)
        · cases h
        next c2 v2 heq =>
          cases h
          simp [lookupType]

/-!
## Override-and-cache argument assembly (for the override claims)
-/

/-- When every parameter type either carries an override or is already
cached, the argument loop consumes no fuel beyond a cache probe, changes no
state, and yields exactly the override values verbatim mixed with cached
instances. -/
theorem resolveArgs_mixed (W : TypeWorld) (f : Nat) (c : Container) (p : Provider) :
    ∀ params, (∀ pt ∈ params,
        (lookupType p.args pt).isSome ∨ (lookupType c.instances pt).isSome) →
      resolveArgs W (f + 1) c p params =
        some (c, Except.ok (params.map (mixedArg p c))) := by
  intro params
  induction params with
  | nil => intro _; simp [resolveArgs]
  | cons pt rest ih =>
    intro hcov
    have hrest := ih (fun u hu => hcov u (by simp [hu]))
    cases hov : lookupType p.args pt with
    | some v =>
      simp only [resolveArgs, hov, hrest, List.map_cons, mixedArg]
    | none =>
      rcases hcov pt (by simp) with hs | hs
      · rw [hov] at hs; cases hs
      · obtain ⟨w, hw⟩ := Option.isSome_iff_exists.mp hs
        have hhit := getInstanceByType_cached W f c pt w hw
        simp only [resolveArgs, hov, hhit, hrest, List.map_cons, mixedArg, hw]
        simp

/-!
## Lifecycle loop lemmas
-/

theorem collectServices_eq_filter (S : SvcWorld) (l : List Value) :
    collectServices S l = l.filter (fun v => S.isServicer v) := by
  induction l with
  | nil => simp [collectServices]
  | cons v rest ih =>
    simp only [collectServices, List.filter_cons]
    split <;> simp_all

theorem collectServicesRev_eq_reverse (S : SvcWorld) (l : List Value) :
    collectServicesRev S l = (collectServices S l).reverse := by
  simp [collectServicesRev, collectServices_eq_filter, List.filter_reverse]

theorem startLoop_all_ok (S : SvcWorld) :
    ∀ l, (∀ v ∈ l, S.startRes v = none) → startLoop S l = (l, none) := by
  intro l
  induction l with
  | nil => intro _; simp [startLoop]
  | cons v rest ih =>
    intro hok
    have hv : S.startRes v = none := hok v (by simp)
    have hr := ih (fun u hu => hok u (by simp [hu]))
    simp [startLoop, hv, hr]

theorem startLoop_break (S : SvcWorld) (v : Value) (e : Err) (hv : S.startRes v = some e) :
    ∀ l1 l2, (∀ u ∈ l1, S.startRes u = none) →
      startLoop S (l1 ++ v :: l2) = (l1 ++ [v], some e) := by
  intro l1
  induction l1 with
  | nil => intro l2 _; simp [startLoop, hv]
  | cons u rest ih =>
    intro l2 hok
    have hu : S.startRes u = none := hok u (by simp)
    have hr := ih l2 (fun w hw => hok w (by simp [hw]))
    simp [startLoop, hu, hr]

theorem stopLoop_trace (S : SvcWorld) : ∀ l, (stopLoop S l).1 = l := by
  intro l
  induction l with
  | nil => simp [stopLoop]
  | cons v rest ih => simp [stopLoop, ih]

theorem stopLoop_first_error (S : SvcWorld) (v : Value) (e : Err) (hv : S.stopRes v = some e) :
    ∀ l1 l2, (∀ u ∈ l1, S.stopRes u = none) →
      (stopLoop S (l1 ++ v :: l2)).2 = some e := by
  intro l1
  induction l1 with
  | nil => intro l2 _; simp [stopLoop, hv]
  | cons u rest ih =>
    intro l2 hok
    have hu : S.stopRes u = none := hok u (by simp)
    have hr := ih l2 (fun w hw => hok w (by simp [hw]))
    simp [stopLoop, hu, hr]

theorem stopLoop_all_ok (S : SvcWorld) :
    ∀ l, (∀ v ∈ l, S.stopRes v = none) → (stopLoop S l).2 = none := by
  intro l
  induction l with
  | nil => intro _; simp [stopLoop]
  | cons v rest ih =>
    intro hok
    have hv : S.stopRes v = none := hok v (by simp)
    have hr := ih (fun u hu => hok u (by simp [hu]))
    simp [stopLoop, hv, hr]

/-- Deriving a bounded context preserves the originating root context. -/
theorem runStopCtx_root (app : App) (ctx : Ctx) : (app.runStopCtx ctx).root = ctx.root := by
  unfold App.runStopCtx
  split <;> simp [Ctx.root]

/-!
## Claims
-/

/-- C10: an `App` built by `NewApp` without timeout options defaults both
the start and the stop timeout to 30 seconds, so both phases are bounded
(`runStart`/`runStop` derive a deadline); an unbounded phase requires
explicitly passing a zero timeout option. -/
theorem c10_defaults_thirty_seconds :
    ∀ (c : Container) (ctx : Ctx),
      (NewApp c []).startTimeout = 30 * 1000000000 ∧
      (NewApp c []).stopTimeout = 30 * 1000000000 ∧
      0 < (NewApp c []).startTimeout ∧ 0 < (NewApp c []).stopTimeout ∧
      (NewApp c []).runStartCtx ctx = Ctx.withTimeout ctx (30 * 1000000000) ∧
      (NewApp c []).runStopCtx ctx = Ctx.withTimeout ctx (30 * 1000000000) ∧
      (NewApp c [WithStartTimeout 0]).runStartCtx ctx = ctx ∧
      (NewApp c [WithStopTimeout 0]).runStopCtx ctx = ctx := by
  intro c ctx
  refine ⟨rfl, rfl, by show (0:Nat) < 30 * 1000000000; decide,
    by show (0:Nat) < 30 * 1000000000; decide, ?_, ?_, ?_, ?_⟩ <;>
    simp [NewApp, WithStartTimeout, WithStopTimeout, App.runStartCtx, App.runStopCtx,
      DefaultStartTimeout, DefaultStopTimeout]

/-- C6 counterexample: under default options, when `Start` fails inside
`Run`, the stop bound is derived from the caller's external context — its
root is the external context, not an independent fresh one, contradicting
the claimed independence. -/
theorem c6_counterexample :
    (App.Run S6 app6).ret = some (Err.msg "startboom") ∧
    (App.Run S6 app6).stopCtx = Ctx.withTimeout Ctx.external (30 * 1000000000) ∧
    (App.Run S6 app6).stopCtx.root = Ctx.external :=
  ⟨rfl, rfl, rfl⟩

/-- C6 (amended): when `Start` fails inside `Run`, `Stop` runs under a bound
derived from the caller's external context (not an independent one) and the
start error is returned; when `Start` succeeds, `Run` waits for the external
context and then runs `Stop` under a fresh bound derived from
`context.Background()`, independent of the external context. -/
theorem c6_run_stop_contexts (S : SvcWorld) (app : App) :
    (∀ e, (App.StartPhase S app).2 = some e →
      App.Run S app =
        { startCtx := app.runStartCtx Ctx.external,
          stopCtx := app.runStopCtx Ctx.external, ret := some e } ∧
      (app.runStopCtx Ctx.external).root = Ctx.external) ∧
    ((App.StartPhase S app).2 = none →
      App.Run S app =
        { startCtx := app.runStartCtx Ctx.external,
          stopCtx := app.runStopCtx Ctx.background,
          ret := (App.StopPhase S app).2 } ∧
      (app.runStopCtx Ctx.background).root = Ctx.background) := by
  constructor
  · intro e he
    exact ⟨by simp only [App.Run, he], by rw [runStopCtx_root]; rfl⟩
  · intro he
    exact ⟨by simp only [App.Run, he], by rw [runStopCtx_root]; rfl⟩

/-- C6 witness: both branches of the amended claim at concrete inputs. -/
theorem c6_witness :
    (App.Run S6 app6 =
      { startCtx := app6.runStartCtx Ctx.external,
        stopCtx := app6.runStopCtx Ctx.external, ret := some (Err.msg "startboom") } ∧
      (app6.runStopCtx Ctx.external).root = Ctx.external) ∧
    (App.Run S6ok app6 =
      { startCtx := app6.runStartCtx Ctx.external,
        stopCtx := app6.runStopCtx Ctx.background,
        ret := (App.StopPhase S6ok app6).2 } ∧
      (app6.runStopCtx Ctx.background).root = Ctx.background) :=
  ⟨(c6_run_stop_contexts S6 app6).1 (Err.msg "startboom") rfl,
   (c6_run_stop_contexts S6ok app6).2 rfl⟩

/-- C7 counterexample: the only service's `Stop` reports an error that is
`context.DeadlineExceeded`; the stop loop records it as the first
encountered error, yet `App.Stop` returns nil instead of that error. -/
theorem c7_counterexample :
    (stopLoop S7 (collectServicesRev S7 app7.container.instancesList)).2 =
      some Err.deadlineExceeded ∧
    (App.StopPhase S7 app7).2 = none :=
  ⟨rfl, rfl⟩

/-- C7 (amended): `App.Start` invokes each service sequentially and halts at
the first failure, never invoking any later service; `App.Stop` invokes
`Stop` on every service even after an earlier failure and returns the first
encountered error — unless that first error is (or wraps)
`context.DeadlineExceeded`, in which case it returns nil. -/
theorem c7_start_halts_stop_attempts_all (S : SvcWorld) (app : App)
    (l1 l2 m1 m2 : List Value) (v w : Value) (e eStop : Err)
    (hstart : collectServices S app.container.instancesList = l1 ++ v :: l2)
    (hok1 : ∀ u ∈ l1, S.startRes u = none)
    (hv : S.startRes v = some e)
    (hstop : collectServicesRev S app.container.instancesList = m1 ++ w :: m2)
    (hok2 : ∀ u ∈ m1, S.stopRes u = none)
    (hw : S.stopRes w = some eStop) :
    App.StartPhase S app = (l1 ++ [v], some e) ∧
    (App.StopPhase S app).1 = m1 ++ w :: m2 ∧
    (App.StopPhase S app).2 =
      (if errIs eStop Err.deadlineExceeded then none else some eStop) := by
  refine ⟨?_, ?_, ?_⟩
  · unfold App.StartPhase
    rw [hstart]
    exact startLoop_break S v e hv l1 l2 hok1
  · simp only [App.StopPhase, hstop]
    exact stopLoop_trace S (m1 ++ w :: m2)
  · simp only [App.StopPhase, hstop,
      stopLoop_first_error S w eStop hw m1 m2 hok2, optErrIsDeadline]

/-- C7 witness: three services, the middle one failing both phases with
ordinary errors. -/
theorem c7_witness :
    App.StartPhase S7w app7w = ([1, 2], some (Err.msg "s2start")) ∧
    (App.StopPhase S7w app7w).1 = [3, 2, 1] ∧
    (App.StopPhase S7w app7w).2 =
      (if errIs (Err.msg "s2stop") Err.deadlineExceeded then none
       else some (Err.msg "s2stop")) :=
  c7_start_halts_stop_attempts_all S7w app7w [1] [3] [3] [1] 2 2
    (Err.msg "s2start") (Err.msg "s2stop") rfl (by decide) rfl rfl (by decide) rfl

/-- C9 counterexample: in stop order, an ordinary error precedes the
deadline expiry; although the stop phase's deadline expired (instance 2's
bounded call returned `context.DeadlineExceeded`), `App.Stop` returns the
ordinary error, not nil. -/
theorem c9_counterexample :
    S9.stopRes 2 = some Err.deadlineExceeded ∧
    (App.StopPhase S9 app9).1 = [1, 2] ∧
    (App.StopPhase S9 app9).2 = some (Err.msg "boom") :=
  ⟨rfl, rfl, rfl⟩

/-- C9 (amended): a start-phase deadline expiry — necessarily the first
failure, since `Start` breaks at the first error — is returned as a
deadline-specific error (`errors.Is(err, context.DeadlineExceeded)`) and
aborts the remaining starts; a stop-phase expiry that is the first
encountered error is only logged: every service is still attempted and nil
is returned. -/
theorem c9_deadline_start_fatal_stop_silent (S : SvcWorld) (app : App)
    (l1 l2 m1 m2 : List Value) (v w : Value) (e eStop : Err)
    (hstart : collectServices S app.container.instancesList = l1 ++ v :: l2)
    (hok1 : ∀ u ∈ l1, S.startRes u = none)
    (hv : S.startRes v = some e)
    (hdl : errIs e Err.deadlineExceeded = true)
    (hstop : collectServicesRev S app.container.instancesList = m1 ++ w :: m2)
    (hok2 : ∀ u ∈ m1, S.stopRes u = none)
    (hw : S.stopRes w = some eStop)
    (hdlStop : errIs eStop Err.deadlineExceeded = true) :
    App.StartPhase S app = (l1 ++ [v], some e) ∧
    optErrIsDeadline (App.StartPhase S app).2 = true ∧
    (App.StopPhase S app).1 = m1 ++ w :: m2 ∧
    (App.StopPhase S app).2 = none := by
  have hstart2 : App.StartPhase S app = (l1 ++ [v], some e) := by
    unfold App.StartPhase
    rw [hstart]
    exact startLoop_break S v e hv l1 l2 hok1
  refine ⟨hstart2, ?_, ?_, ?_⟩
  · rw [hstart2]
    simp [optErrIsDeadline, hdl]
  · simp only [App.StopPhase, hstop]
    exact stopLoop_trace S (m1 ++ w :: m2)
  · simp only [App.StopPhase, hstop,
      stopLoop_first_error S w eStop hw m1 m2 hok2, optErrIsDeadline, hdlStop]
    simp

/-- C9 witness: three services with the phase deadline expiring at the
middle one in both phases. -/
theorem c9_witness :
    App.StartPhase S9w app9w = ([1, 2], some Err.deadlineExceeded) ∧
    optErrIsDeadline (App.StartPhase S9w app9w).2 = true ∧
    (App.StopPhase S9w app9w).1 = [3, 2, 1] ∧
    (App.StopPhase S9w app9w).2 = none :=
  c9_deadline_start_fatal_stop_silent S9w app9w [1] [3] [3] [1] 2 2
    Err.deadlineExceeded Err.deadlineExceeded rfl (by decide) rfl (by decide)
    rfl (by decide) rfl (by decide)

/-- C8: the creation-order list only grows, append-only, during resolution
(each constructor invocation appends its instance at the moment of
construction, so the list is the first-construction order); `App.Start`
iterates exactly the `Servicer` filter of that list in order, and
`App.Stop` iterates exactly its reverse; concretely, registering the root
before its dependency still yields the dependency's instance first
(creation order, not registration order). -/
theorem c8_creation_order_drives_lifecycle :
    (∀ (W : TypeWorld) (fuel : Nat) (c : Container) (t : Ty)
        (r : Container × Except Err Value),
      getInstanceByType W fuel c t = some r →
      ∃ tail, r.1.instancesList = c.instancesList ++ tail) ∧
    (∀ (S : SvcWorld) (l : List Value),
      collectServices S l = l.filter (fun v => S.isServicer v)) ∧
    (∀ (S : SvcWorld) (app : App),
      (∀ v ∈ collectServices S app.container.instancesList, S.startRes v = none) →
      App.StartPhase S app = (collectServices S app.container.instancesList, none)) ∧
    (∀ (S : SvcWorld) (app : App),
      (App.StopPhase S app).1 =
        (collectServices S app.container.instancesList).reverse) ∧
    (c1.providers = [pRoot1, pDep1] ∧ pDep1.initFunc [] = Except.ok 60 ∧
      pRoot1.initFunc [60] = Except.ok 50 ∧ c1After.instancesList = [60, 50]) := by
  refine ⟨?_, collectServices_eq_filter, ?_, ?_, rfl, rfl, rfl, by
    simp [c1After, afterResolve, Container.Resolve, getInstanceByType, buildInstance, resolveArgs,
        lookupType, findProviderByType, matchByType, W1, pRoot1, pDep1, c1, New, removeFirst]⟩
  · intro W fuel c t r h
    exact ((keep_getBuild W fuel).1 c t r h).2.2.2
  · intro S app hok
    unfold App.StartPhase
    exact startLoop_all_ok S _ hok
  · intro S app
    simp only [App.StopPhase, collectServicesRev_eq_reverse]
    exact stopLoop_trace S _

/-- C8 witness: the append-only growth at the concrete root resolution, and
a full no-failure start pass in creation order. -/
theorem c8_witness :
    (∃ tail, c1After.instancesList = c1.instancesList ++ tail) ∧
    App.StartPhase S6ok app7w = (collectServices S6ok app7w.container.instancesList, none) :=
  ⟨c8_creation_order_drives_lifecycle.1 W1 9 c1 0 (c1After, Except.ok 50)
      (by simp [c1After, afterResolve, Container.Resolve, getInstanceByType, buildInstance, resolveArgs,
        lookupType, findProviderByType, matchByType, W1, pRoot1, pDep1, c1, New, removeFirst]),
   c8_creation_order_drives_lifecycle.2.2.1 S6ok app7w (by decide)⟩

/-- C4: a parameter type carrying an `Arg` override receives the override
value verbatim and is never graph-resolved — the conclusion holds for every
type world, including ones in which no provider matches the parameter, and
the singleton cache is left untouched; parameters without an override are
resolved by type (here: served from the singleton cache).  Only the
creation-order append changes the container. -/
theorem c4_override_verbatim (W : TypeWorld) (f : Nat) (c : Container) (p : Provider)
    (res : Value)
    (hguard : p.returnType ∉ c.resolvedMap)
    (hcov : ∀ pt ∈ p.paramTypes,
      (lookupType p.args pt).isSome ∨ (lookupType c.instances pt).isSome)
    (hinit : p.initFunc (p.paramTypes.map (mixedArg p c)) = Except.ok res) :
    buildInstance W (f + 2) c p =
      some ({ c with instancesList := c.instancesList ++ [res] }, Except.ok res) := by
  have hargs : resolveArgs W (f + 1)
      { c with resolvedMap := p.returnType :: c.resolvedMap } p p.paramTypes =
      some ({ c with resolvedMap := p.returnType :: c.resolvedMap },
        Except.ok (p.paramTypes.map (mixedArg p c))) :=
    resolveArgs_mixed W f { c with resolvedMap := p.returnType :: c.resolvedMap } p
      p.paramTypes (fun pt h => hcov pt h)
  simp only [buildInstance, if_neg hguard, hargs, hinit]
  simp [removeFirst_cons_self]

/-- C4 witness: provider with two parameters, an override `77` for type `1`
(which no provider can serve) and a cached instance `88` for type `2`; the
constructor receives `[77, 88]` and the override is passed verbatim. -/
theorem c4_witness :
    buildInstance W4 9 cMix4 pMix4 =
      some ({ cMix4 with instancesList := cMix4.instancesList ++ [77] }, Except.ok 77) :=
  c4_override_verbatim W4 7 cMix4 pMix4 77 (by decide) (by decide) rfl

/-- C5 counterexample: a root provider whose constructor fails: the error
comes back from `Resolve` exactly as the constructor reported it, with no
`[constructor: ...]` provider-name context anywhere on its chain. -/
theorem c5_counterexample :
    Container.Resolve WB 9 cBoom false 3 "tgt" =
      some (cBoom, Except.error (Err.msg "boom")) ∧
    hasConstructorCtx (Err.msg "boom") = false :=
  ⟨by simp [Container.Resolve, getInstanceByType, buildInstance, resolveArgs, lookupType,
        findProviderByType, matchByType, WB, pBoom, cBoom, New, removeFirst], rfl⟩

/-- C5 (amended): a constructor's own error is propagated verbatim with no
added context; provider-name context (`[constructor: name]`) is appended
only when an error bubbles through the parameter resolution of a consuming
provider, and it names the consumer. -/
theorem c5_error_context (W : TypeWorld) (f : Nat) (p : Provider) :
    (∀ c cMid args e, p.returnType ∉ c.resolvedMap →
      resolveArgs W f { c with resolvedMap := p.returnType :: c.resolvedMap } p
          p.paramTypes = some (cMid, Except.ok args) →
      p.initFunc args = Except.error e →
      buildInstance W (f + 1) c p =
        some ({ cMid with resolvedMap := removeFirst cMid.resolvedMap p.returnType },
          Except.error e)) ∧
    (∀ c cMid pt rest eDep, lookupType p.args pt = none →
      getInstanceByType W f c pt = some (cMid, Except.error eDep) →
      resolveArgs W f c p (pt :: rest) =
        some (cMid, Except.error (Err.wrapConstructor eDep p.name))) := by
  constructor
  · intro c cMid args e hguard hargs hinit
    simp only [buildInstance, if_neg hguard, hargs, hinit]
  · intro c cMid pt rest eDep hov hget
    simp only [resolveArgs, hov, hget]

/-- C5 witness: the failing constructor's error surfaces verbatim from
`buildInstance`, and a dependency-resolution failure (no provider for type
`99`) is wrapped with the consuming provider's name. -/
theorem c5_witness :
    buildInstance WB 9 cBoom pBoom = some (cBoom, Except.error (Err.msg "boom")) ∧
    resolveArgs WB 9 cBoom pBoom [99] =
      some (cBoom, Except.error (Err.wrapConstructor (Err.noProviderForType 99) pBoom.name)) :=
  ⟨(c5_error_context WB 8 pBoom).1 cBoom { cBoom with resolvedMap := [20] } []
      (Err.msg "boom") (by decide)
      (by simp [resolveArgs, pBoom, cBoom, New]) rfl,
   (c5_error_context WB 9 pBoom).2 cBoom cBoom 99 [] (Err.noProviderForType 99) rfl
     (by simp [Container.Resolve, getInstanceByType, buildInstance, resolveArgs, lookupType,
        findProviderByType, matchByType, WB, pBoom, cBoom, New, removeFirst])⟩

/-- C3 counterexample: a single provider resolved once by interface and once
by concrete type: its constructor runs twice, and two instances are appended
to the creation-order list — more than one instance for one provider. -/
theorem c3_counterexample : twiceList = [99, 99] ∧ ¬ twiceList.length ≤ 1 := by
  have h : twiceList = [99, 99] := by
    simp [twiceList, afterResolve, Container.Resolve, getInstanceByInterface, getInstanceByType,
        buildInstance, resolveArgs, lookupType, findProviderByType, findProviderByInterface,
        matchByType, W3, pImpl3, cIface, New, removeFirst]
  exact ⟨h, by rw [h]; decide⟩

/-- C3 (amended): the singleton guarantee is per resolved type/capability
descriptor (the cache key), not per provider: a second resolution of the
same descriptor hits the singleton cache and returns the same instance with
the container unchanged — the constructor is not invoked again. -/
theorem c3_singleton_per_descriptor :
    (∀ (W : TypeWorld) (fuel fuel2 : Nat) (c cOut : Container) (t : Ty) (v : Value),
      getInstanceByType W fuel c t = some (cOut, Except.ok v) →
      getInstanceByType W (fuel2 + 1) cOut t = some (cOut, Except.ok v)) ∧
    (∀ (W : TypeWorld) (fuel fuel2 : Nat) (c cOut : Container) (t : Ty) (v : Value),
      getInstanceByInterface W fuel c t = some (cOut, Except.ok v) →
      getInstanceByInterface W (fuel2 + 1) cOut t = some (cOut, Except.ok v)) := by
  constructor
  · intro W fuel fuel2 c cOut t v h
    exact getInstanceByType_cached W fuel2 cOut t v (getInstanceByType_caches W fuel c t cOut v h)
  · intro W fuel fuel2 c cOut t v h
    exact getInstanceByInterface_cached W fuel2 cOut t v
      (getInstanceByInterface_caches W fuel c t cOut v h)

/-- C3 witness: repeated resolutions of the same concrete type and of the
same interface return the cached instance with the container unchanged. -/
theorem c3_witness :
    getInstanceByType W1 9 c1After 0 = some (c1After, Except.ok 50) ∧
    getInstanceByInterface W3 9 (afterResolve (Container.Resolve W3 9 cIface true 5 "tgt")) 5 =
      some (afterResolve (Container.Resolve W3 9 cIface true 5 "tgt"), Except.ok 99) :=
  ⟨c3_singleton_per_descriptor.1 W1 9 8 c1 c1After 0 50
      (by simp [c1After, afterResolve, Container.Resolve, getInstanceByType, buildInstance, resolveArgs,
        lookupType, findProviderByType, matchByType, W1, pRoot1, pDep1, c1, New, removeFirst]),
   c3_singleton_per_descriptor.2 W3 9 8 cIface
     (afterResolve (Container.Resolve W3 9 cIface true 5 "tgt")) 5 99
      (by simp [twiceList, afterResolve, Container.Resolve, getInstanceByInterface, getInstanceByType,
        buildInstance, resolveArgs, lookupType, findProviderByType, findProviderByInterface,
        matchByType, W3, pImpl3, cIface, New, removeFirst])⟩

/-- C2: resolving a type on a fully-linked constructor cycle — each link a
single-parameter provider feeding the next request, the last looping back to
a provider already mid-construction — terminates with the same result for
every sufficient fuel (it never diverges), leaves the container unchanged
(all in-progress markers released), and returns an error whose `%w` chain
bottoms out in the cycle error naming the provider whose construction was in
progress. -/
theorem c2_cycle_detected (W : TypeWorld) (c : Container) (t0 : Ty) (q0 : Provider)
    (rest : List (Ty × Provider)) (nm : String)
    (hch : ChainHyps W t0 q0 c ((t0, q0) :: rest)) :
    ∀ fuel, 2 * ((t0, q0) :: rest).length + 2 ≤ fuel →
      ∃ e, Container.Resolve W fuel c false t0 nm = some (c, Except.error e) ∧
        unwrapAll e = Err.circular q0.name := by
  intro fuel hfuel
  obtain ⟨e, hget, hcore⟩ :=
    chain_cycle_error W t0 q0 ((t0, q0) :: rest) c hch fuel hfuel
  exact ⟨e, by simpa [Container.Resolve, chainHead] using hget, hcore⟩

/-- C2 witness: the mutual cycle `A(B)`, `B(A)` resolved at `A`'s type. -/
theorem c2_witness :
    ∃ e, Container.Resolve W2 6 cCyc false 0 "tgt" = some (cCyc, Except.error e) ∧
      unwrapAll e = Err.circular pA2.name :=
  c2_cycle_detected W2 cCyc 0 pA2 [(1, pB2)] "tgt"
    ⟨rfl, rfl, rfl, rfl, by decide, rfl, rfl, rfl, rfl, by decide, by decide, rfl, rfl⟩
    6 (by decide)

/-- C1 counterexample: a duplicate-free, acyclic, fully covered provider set
(one parameterless provider serving the root type) whose constructor reports
an error: `Resolve` returns that error instead of succeeding. -/
theorem c1_counterexample :
    cBoom.providers.map Provider.returnType = [20] ∧
    pBoom.paramTypes = [] ∧
    findProviderByType WB cBoom.providers 3 = some pBoom ∧
    Container.Resolve WB 9 cBoom false 3 "tgt" =
      some (cBoom, Except.error (Err.msg "boom")) := by
  refine ⟨rfl, rfl, rfl, ?_⟩
  simp [Container.Resolve, getInstanceByType, buildInstance, resolveArgs, lookupType,
    findProviderByType, matchByType, WB, pBoom, cBoom, New, removeFirst]

/-- C1 (amended): for a duplicate-free provider set whose traversed
dependency graph is acyclic (witnessed by a rank function), in which every
type reachable from the root has a matching provider (non-overridden
parameters only induce edges), and whose constructors all succeed, `Resolve`
on the root type from a fresh container succeeds, and an instance is cached
for every type reachable from the root. -/
theorem c1_acyclic_resolution_succeeds (W : TypeWorld) (ps : List Provider) (root : Ty)
    (R : Ty → Nat) (fuel : Nat) (nm : String)
    (HN : (ps.map Provider.returnType).Nodup)
    (HR : ∀ t u, Edge W ps t u → R u < R t)
    (HC : ∀ u, Reach W ps root u → (findProviderByType W ps u).isSome)
    (HK : ∀ p ∈ ps, ∀ args, ∃ v, p.initFunc args = Except.ok v)
    (hfuel : 2 * R root + 2 ≤ fuel) :
    ∃ cOut v, Container.Resolve W fuel { New with providers := ps } false root nm =
        some (cOut, Except.ok v) ∧
      ∀ u, Reach W ps root u → lookupType cOut.instances u ≠ none := by
  obtain ⟨cOut, v, hget, _, _, hclosed, _, hroot⟩ :=
    getInstanceByType_success W ps root R HN HR HC HK (R root) root
      { New with providers := ps } fuel (Nat.le_refl _) hfuel (Reach.refl root) rfl
      (closedInst_nil W ps) (fun x hx => absurd hx (List.not_mem_nil x))
  exact ⟨cOut, v, by simpa [Container.Resolve] using hget,
    fun u hu => reach_cached W ps cOut.instances hclosed root u hu hroot⟩

/-- Edge inversion in the root/dep scenario: the only traversed dependency
edge is from the root request `0` to the dependency request `1`. -/
theorem w1_edge : ∀ t u, Edge W1 [pRoot1, pDep1] t u → t = 0 ∧ u = 1 := by
  rintro t u ⟨p, hp, hmem, hov⟩
  simp only [findProviderByType] at hp
  split at hp
  next hm =>
    cases hp
    simp only [matchByType, W1, pRoot1] at hm
    simp only [pRoot1, List.mem_singleton] at hmem
    simp at hm
    exact ⟨hm, hmem⟩
  next hm1 =>
    split at hp
    next hm2 =>
      cases hp
      simp [pDep1] at hmem
    next => cases hp

/-- Reachability inversion in the root/dep scenario. -/
theorem w1_reach : ∀ s u, Reach W1 [pRoot1, pDep1] s u → u = s ∨ u = 1 := by
  intro s u h
  induction h with
  | refl t => exact Or.inl rfl
  | step e _ ih =>
    obtain ⟨_, rfl⟩ := w1_edge _ _ e
    rcases ih with rfl | rfl
    · exact Or.inr rfl
    · exact Or.inr rfl

/-- C1 witness: the two-provider root/dep scenario resolved at the root. -/
theorem c1_witness :
    ∃ cOut v,
      Container.Resolve W1 9 { New with providers := [pRoot1, pDep1] } false 0 "tgt" =
        some (cOut, Except.ok v) ∧
      ∀ u, Reach W1 [pRoot1, pDep1] 0 u → lookupType cOut.instances u ≠ none :=
  c1_acyclic_resolution_succeeds W1 [pRoot1, pDep1] 0 R1 9 "tgt"
    (by decide)
    (fun t u e => by obtain ⟨rfl, rfl⟩ := w1_edge t u e; decide)
    (fun u h => by rcases w1_reach 0 u h with rfl | rfl <;> decide)
    (by
      intro p hp args
      rcases List.mem_cons.mp hp with rfl | hp2
      · exact ⟨50, rfl⟩
      · rcases List.mem_cons.mp hp2 with rfl | hp3
        · exact ⟨60, rfl⟩
        · exact absurd hp3 (List.not_mem_nil p))
    (by decide)
